import Mathlib

set_option autoImplicit false

/-!
Shallow embedding of the MatchingEngine repository (src/rust/src/main.rs).

Modelling conventions:
* Rust f64 limit prices are modelled as exact rationals; u32 quantities as
  naturals; String keys stay String.
* std HashMap is modelled as an association list with at most one entry per
  key; insert overwrites the value of an existing key in place.
* The priority_queue crate's PriorityQueue is modelled as its heap array, a
  list of item-priority pairs.  Every push in this program uses the constant
  priority 1, and with all priorities equal the crate's binary-heap sift
  operations never move an element (an element moves only past a strictly
  smaller priority): push appends at the end of the heap array, and pop
  removes the root at index 0 and moves the last array element into its
  place.  The item's own Ord instance is never consulted by the queue.
* Methods that mutate self are modelled as functions returning the result
  together with the updated value.
* The body of OrderComparable's cmp aborts the process on a cross-side
  comparison; it is modelled as an Option-valued function, none standing for
  the abort.
-/

namespace MatchingEngine

/-- Order side, from the source enum Side. -/
inductive Side where
  | Buy
  | Sell
  deriving DecidableEq, Repr

/-- Order record, from the source struct Order. -/
structure Order where
  order_id : String
  symbol : String
  price : Rat
  qty : Nat
  cum_qty : Nat
  leaves_qty : Nat
  side : Side
  deriving DecidableEq, Repr

/-- Trade record, from the source struct Trade. -/
structure Trade where
  order_id : String
  symbol : String
  trade_price : Rat
  trade_qty : Nat
  trade_side : Side
  trade_id : String
  deriving DecidableEq, Repr

/-- Wrapper struct OrderComparable from the source. -/
structure OrderComparable where
  order : Order
  deriving DecidableEq, Repr

/-- Source impl Ord for OrderComparable: comparison by price only; on the Buy
side a higher price is greater, on the Sell side a lower price is greater.
The cross-side branch aborts the program in the source and is modelled as
none. -/
def OrderComparable.cmp (a b : OrderComparable) : Option Ordering :=
  if a.order.side ≠ b.order.side then
    none
  else if a.order.side = Side.Buy then
    some (if a.order.price > b.order.price then Ordering.gt
      else if a.order.price = b.order.price then Ordering.eq
      else Ordering.lt)
  else
    some (if a.order.price < b.order.price then Ordering.gt
      else if a.order.price = b.order.price then Ordering.eq
      else Ordering.lt)

/-- Association-list model of std HashMap with String keys. -/
abbrev HMap (α : Type) : Type := List (String × α)

/-- Key membership test of the HashMap model. -/
def hmContains {α : Type} : HMap α → String → Bool
  | [], _ => false
  | e :: m, k => e.1 == k || hmContains m k

/-- Lookup in the HashMap model. -/
def hmGet {α : Type} : HMap α → String → Option α
  | [], _ => none
  | e :: m, k => if e.1 == k then some e.2 else hmGet m k

/-- Insert in the HashMap model: overwrites an existing key in place,
otherwise appends a new entry. -/
def hmInsert {α : Type} : HMap α → String → α → HMap α
  | [], k, v => [(k, v)]
  | e :: m, k, v => if e.1 == k then (k, v) :: m else e :: hmInsert m k v

/-- Keys of the HashMap model. -/
def hmKeys {α : Type} (m : HMap α) : List String :=
  m.map (fun e => e.1)

/-- Heap-array model of priority_queue::PriorityQueue (see the module
docstring: valid for this program, where every priority is 1). -/
abbrev PQ (α : Type) : Type := List (α × Int)

/-- Push into the queue model: appends at the end of the heap array (no sift
movement happens with all-equal priorities). -/
def pqPush {α : Type} (q : PQ α) (x : α) (p : Int) : PQ α :=
  q ++ [(x, p)]

/-- Pop from the queue model: removes the root (index 0) and moves the last
array element into its place (no sift-down movement with all-equal
priorities); none on an empty queue. -/
def pqPop {α : Type} : PQ α → Option ((α × Int) × PQ α)
  | [] => none
  | x :: rest =>
    match rest.getLast? with
    | none => some (x, [])
    | some l => some (x, l :: rest.dropLast)

/-- Source struct OrderBook. -/
structure OrderBook where
  symbol : String
  asks : PQ OrderComparable
  bids : PQ OrderComparable
  order_id_mapping : HMap Order
  deriving DecidableEq, Repr

/-- Source OrderBook::new. -/
def OrderBook.new (symbol : String) : OrderBook :=
  { symbol := symbol, asks := [], bids := [], order_id_mapping := [] }

/-- Source OrderBook::add_order: rejects (false) if the order_id is already
indexed; otherwise inserts into the index and pushes onto the side's queue
with priority 1. -/
def OrderBook.add_order (b : OrderBook) (order : Order) : Bool × OrderBook :=
  if hmContains b.order_id_mapping order.order_id then
    (false, b)
  else
    let b1 : OrderBook :=
      { b with order_id_mapping := hmInsert b.order_id_mapping order.order_id order }
    let comparable_order : OrderComparable := { order := order }
    match order.side with
    | Side.Buy => (true, { b1 with bids := pqPush b1.bids comparable_order 1 })
    | Side.Sell => (true, { b1 with asks := pqPush b1.asks comparable_order 1 })

/-- Source OrderBook::pop_order: pops the given side's queue, returning the
contained order, or none if that side is empty. -/
def OrderBook.pop_order (b : OrderBook) (side : Side) : Option Order × OrderBook :=
  match side with
  | Side.Buy =>
    match pqPop b.bids with
    | some (op, q) => (some op.1.order, { b with bids := q })
    | none => (none, b)
  | Side.Sell =>
    match pqPop b.asks with
    | some (op, q) => (some op.1.order, { b with asks := q })
    | none => (none, b)

/-- Source struct TradingEngine (the Arc/Mutex wrappers carry no sequential
content and are dropped; ticker prices are rationals). -/
structure TradingEngine where
  orderbook_mapping : HMap OrderBook
  ticker_mapping : HMap Rat
  is_live : Bool
  deriving DecidableEq, Repr

/-- Source TradingEngine::new. -/
def TradingEngine.new (symbols : Option (List String)) (is_live : Bool) : TradingEngine :=
  let symbols := symbols.getD ["AAPL", "GOOGL"]
  { orderbook_mapping :=
      (symbols.foldl (fun m symbol => hmInsert m symbol (OrderBook.new symbol)) []),
    ticker_mapping := [],
    is_live := is_live }

/-- Source TradingEngine::init_orderbook: for each given symbol, inserts a
fresh empty order book under that symbol (overwriting any existing book). -/
def TradingEngine.init_orderbook (e : TradingEngine) (symbols : List String) : TradingEngine :=
  { e with orderbook_mapping :=
      (symbols.foldl (fun m symbol => hmInsert m symbol (OrderBook.new symbol))
        e.orderbook_mapping) }

/-- Source TradingEngine::process_order: the body is a stub that returns true
and changes no state. -/
def TradingEngine.process_order (e : TradingEngine) (data : HMap String) :
    Bool × TradingEngine :=
  (true, e)

/-- Source TradingEngine::update_ticker: merges each symbol-price pair of the
batch into the ticker table. -/
def TradingEngine.update_ticker (e : TradingEngine) (new_ticker : HMap Rat) : TradingEngine :=
  { e with ticker_mapping :=
      (new_ticker.foldl (fun m sp => hmInsert m sp.1 sp.2) e.ticker_mapping) }

/-- Source TradingEngine::close_order: the body is a stub that returns true
and changes no state. -/
def TradingEngine.close_order (e : TradingEngine) (order_id : String) :
    Bool × TradingEngine :=
  (true, e)

/-! ### Spec-modelled matching engine

The bodies of TradingEngine::process_order, TradingEngine::trade and
TradingEngine::close_order in the repository are empty stubs, so the
submission pipeline (validation, matching, cancel) of spec sections 4.3, 4.4
and 7 is modelled here from the spec's words. -/

/-- Error taxonomy of spec section 7. -/
inductive EngineError where
  | DuplicateOrder
  | InvalidOrder
  | UnknownSymbol
  | OrderNotFound
  deriving DecidableEq, Repr

/-- Modelled from the spec: a per-symbol book for the matching pass, each side
kept as a list in price-time priority order, best first (the repository's
matching engine is an empty stub). -/
structure SpecBook where
  bids : List Order
  asks : List Order
  deriving DecidableEq, Repr

/-- Modelled from the spec: the crossing condition of section 4.3 step 2b —
an aggressor Buy crosses if its price is at least the resting price, an
aggressor Sell crosses if its price is at most the resting price. -/
def crosses (agg resting : Order) : Bool :=
  match agg.side with
  | Side.Buy => resting.price ≤ agg.price
  | Side.Sell => agg.price ≤ resting.price

/-- Modelled from the spec: the Trade record emitted for one fill — one
record per match, carrying the resting order's identity, at the resting
order's price (maker-price rule of section 4.3 step 2d). -/
def fillTrade (resting : Order) (fill : Nat) : Trade :=
  { order_id := resting.order_id,
    symbol := resting.symbol,
    trade_price := resting.price,
    trade_qty := fill,
    trade_side := resting.side,
    trade_id := resting.order_id ++ "-t" }

/-- Modelled from the spec: the continuous-matching loop of section 4.3.
Arguments: the aggressor, the opposite side best-first, the trades emitted so
far.  Returns the aggressor's final state, the remaining opposite side and
the accumulated trades. -/
def matchLoop : Order → List Order → List Trade → Order × List Order × List Trade
  | agg, [], trades => (agg, [], trades)
  | agg, r :: rest, trades =>
    if agg.leaves_qty = 0 then (agg, r :: rest, trades)
    else if crosses agg r = false then (agg, r :: rest, trades)
    else
      let fill := min agg.leaves_qty r.leaves_qty
      let agg1 : Order :=
        { agg with leaves_qty := agg.leaves_qty - fill, cum_qty := agg.cum_qty + fill }
      let r1 : Order :=
        { r with leaves_qty := r.leaves_qty - fill, cum_qty := r.cum_qty + fill }
      let trades1 := trades ++ [fillTrade r fill]
      if r1.leaves_qty = 0 then matchLoop agg1 rest trades1
      else (agg1, r1 :: rest, trades1)

/-- Modelled from the spec: resting a bid preserving price-time priority —
it goes before the first strictly worse (lower-priced) bid, so FIFO order is
kept at an equal price level. -/
def insertBid (o : Order) : List Order → List Order
  | [] => [o]
  | r :: rest => if r.price < o.price then o :: r :: rest else r :: insertBid o rest

/-- Modelled from the spec: resting an ask preserving price-time priority —
it goes before the first strictly worse (higher-priced) ask. -/
def insertAsk (o : Order) : List Order → List Order
  | [] => [o]
  | r :: rest => if o.price < r.price then o :: r :: rest else r :: insertAsk o rest

/-- Identifiers of all orders resting in a spec-model book. -/
def specIds (b : SpecBook) : List String :=
  (b.bids ++ b.asks).map (fun o => o.order_id)

/-- Modelled from the spec: submit_order of section 4.5 — validation
(InvalidOrder on non-positive price or zero quantity, before any book
mutation), duplicate check (DuplicateOrder), then the matching loop of
section 4.3 against the opposite side, resting any unfilled remainder. -/
def specSubmit (b : SpecBook) (o : Order) : Except EngineError (List Trade) × SpecBook :=
  if o.price ≤ 0 ∨ o.qty = 0 then
    (Except.error EngineError.InvalidOrder, b)
  else if o.order_id ∈ specIds b then
    (Except.error EngineError.DuplicateOrder, b)
  else
    match o.side with
    | Side.Buy =>
      let res := matchLoop o b.asks []
      (Except.ok res.2.2,
        { bids := if 0 < res.1.leaves_qty then insertBid res.1 b.bids else b.bids,
          asks := res.2.1 })
    | Side.Sell =>
      let res := matchLoop o b.bids []
      (Except.ok res.2.2,
        { bids := res.2.1,
          asks := if 0 < res.1.leaves_qty then insertAsk res.1 b.asks else b.asks })

/-- Modelled from the spec: close_order of section 4.4 — removes the order
from its book if still resting, fails with OrderNotFound if absent. -/
def specClose (b : SpecBook) (oid : String) : Except EngineError Unit × SpecBook :=
  if oid ∈ specIds b then
    (Except.ok (),
      { bids := b.bids.filter (fun o => o.order_id != oid),
        asks := b.asks.filter (fun o => o.order_id != oid) })
  else
    (Except.error EngineError.OrderNotFound, b)

/-- Runs a sequence of submissions through the spec-model book, collecting
every trade produced. -/
def runSubmits : SpecBook → List Order → SpecBook × List Trade
  | b, [] => (b, [])
  | b, o :: os =>
    let r := specSubmit b o
    let rest := runSubmits r.2 os
    (rest.1, (match r.1 with | Except.ok ts => ts | Except.error _ => []) ++ rest.2)

/-! ### Helper lemmas -/

theorem hmGet_hmInsert_self {α : Type} (m : HMap α) (k : String) (v : α) :
    hmGet (hmInsert m k v) k = some v := by
  induction m with
  | nil => simp [hmInsert, hmGet]
  | cons e m ih =>
    by_cases hek : e.1 = k
    · simp [hmInsert, hmGet, hek]
    · simp [hmInsert, hmGet, hek, ih]

theorem hmGet_hmInsert_ne {α : Type} (m : HMap α) (k k' : String) (v : α)
    (h : k' ≠ k) : hmGet (hmInsert m k v) k' = hmGet m k' := by
  have h2 : ¬ (k = k') := fun hh => h hh.symm
  induction m with
  | nil => simp [hmInsert, hmGet, h2]
  | cons e m ih =>
    by_cases hek : e.1 = k
    · have hek' : ¬ (e.1 = k') := fun hh => h2 (hek ▸ hh)
      simp [hmInsert, hmGet, hek, hek', h2]
    · by_cases hek' : e.1 = k'
      · simp [hmInsert, hmGet, hek, hek', h]
      · simp [hmInsert, hmGet, hek, hek', ih]

theorem hmGet_hmInsert_isSome {α : Type} (m : HMap α) (k s : String) (v : α)
    (h : (hmGet m s).isSome = true) : (hmGet (hmInsert m k v) s).isSome = true := by
  by_cases hsk : s = k
  · subst hsk; rw [hmGet_hmInsert_self]; rfl
  · rw [hmGet_hmInsert_ne m k s v hsk]; exact h

theorem pqPop_mem {α : Type} (q : PQ α) (x : α × Int) (q' : PQ α)
    (h : pqPop q = some (x, q')) : ∀ y ∈ q', y ∈ q := by
  cases q with
  | nil => simp [pqPop] at h
  | cons a rest =>
    cases hl : rest.getLast? with
    | none =>
      simp only [pqPop, hl] at h
      obtain ⟨rfl, rfl⟩ := Prod.mk.injEq .. ▸ (Option.some.injEq .. ▸ h)
      intro y hy; simp at hy
    | some l =>
      simp only [pqPop, hl] at h
      obtain ⟨rfl, rfl⟩ := Prod.mk.injEq .. ▸ (Option.some.injEq .. ▸ h)
      intro y hy
      rcases List.mem_cons.1 hy with rfl | hy2
      · obtain ⟨hne, rfl⟩ := List.mem_getLast?_eq_getLast (by rw [hl]; exact rfl)
        exact List.mem_cons_of_mem a (List.getLast_mem hne)
      · exact List.mem_cons_of_mem a (List.dropLast_subset rest hy2)

/-! ### Concrete sample inputs used by witnesses and counterexamples -/

/-- Sample bid with a low limit price. -/
def oLow : Order := ⟨"L", "AAPL", 5, 1, 0, 1, Side.Buy⟩

/-- Sample bid with a high limit price. -/
def oHigh : Order := ⟨"H", "AAPL", 10, 1, 0, 1, Side.Buy⟩

/-- Sample resting bid: Buy 5 at 10.00 (scenario A of spec section 8). -/
def buyA : Order := ⟨"B1", "AAPL", 10, 5, 0, 5, Side.Buy⟩

/-- Sample aggressor: Sell 3 at 9.50 (scenario A of spec section 8). -/
def sellA : Order := ⟨"S1", "AAPL", mkRat 19 2, 3, 0, 3, Side.Sell⟩

/-- Book obtained by adding the sample bid to a fresh AAPL book. -/
def bk1 : OrderBook := (OrderBook.add_order (OrderBook.new "AAPL") buyA).2

/-! ### Claims -/

/-- Claim C3: if the incoming order's order_id is already indexed, add_order
rejects it (returns false) and the book — index and both priority
structures — is left completely unchanged. -/
theorem add_order_duplicate_rejected (b : OrderBook) (o : Order)
    (h : hmContains b.order_id_mapping o.order_id = true) :
    OrderBook.add_order b o = (false, b) := by
  rw [OrderBook.add_order, if_pos h]

/-- Witness for C3: re-adding the sample bid to a book already holding it is
rejected and changes nothing. -/
theorem add_order_duplicate_rejected_witness :
    hmContains bk1.order_id_mapping buyA.order_id = true ∧
    OrderBook.add_order bk1 buyA = (false, bk1) :=
  ⟨by decide, add_order_duplicate_rejected bk1 buyA (by decide)⟩

/-- Claim C10: pop_order is total: on an empty side it returns none and
leaves the book unchanged; on a non-empty side it returns the order held at
the root of that side's structure. -/
theorem pop_order_total (b : OrderBook) :
    (b.bids = [] → OrderBook.pop_order b Side.Buy = (none, b)) ∧
    (b.asks = [] → OrderBook.pop_order b Side.Sell = (none, b)) ∧
    (∀ x rest, b.bids = x :: rest → (OrderBook.pop_order b Side.Buy).1 = some x.1.order) ∧
    (∀ x rest, b.asks = x :: rest → (OrderBook.pop_order b Side.Sell).1 = some x.1.order) := by
  refine ⟨?_, ?_, ?_, ?_⟩
  · intro h; simp [OrderBook.pop_order, h, pqPop]
  · intro h; simp [OrderBook.pop_order, h, pqPop]
  · intro x rest h
    simp only [OrderBook.pop_order, h, pqPop]
    cases hl : rest.getLast? <;> simp
  · intro x rest h
    simp only [OrderBook.pop_order, h, pqPop]
    cases hl : rest.getLast? <;> simp

/-- Witness for C10: on the sample book (one bid, no asks), popping the ask
side returns none with the book unchanged, and popping the bid side returns
the sample bid. -/
theorem pop_order_total_witness :
    bk1.asks = [] ∧ bk1.bids = ({ order := buyA }, (1 : Int)) :: [] ∧
    OrderBook.pop_order bk1 Side.Sell = (none, bk1) ∧
    (OrderBook.pop_order bk1 Side.Buy).1 = some buyA := by
  have h := pop_order_total bk1
  exact ⟨by decide, by decide, h.2.1 (by decide),
    h.2.2.1 ({ order := buyA }, (1 : Int)) [] (by decide)⟩

/-- Claim C1 (code_bug evidence): two bids, price 5 inserted first and price
10 second, both pushed with the constant queue priority 1; the first pop on
the Buy side returns the price-5 order, not the best-priced bid, so popping
does not follow price-time priority. -/
theorem pop_order_not_price_ordered :
    ((OrderBook.pop_order
        (OrderBook.add_order (OrderBook.add_order (OrderBook.new "AAPL") oLow).2 oHigh).2
        Side.Buy).1 = some oLow) ∧
    oLow.price < oHigh.price := by
  constructor
  · rfl
  · decide

/-- Claim C2 (code_bug evidence): adding one bid and then popping it leaves
both priority structures empty while the order_id index still holds the
popped order, so pop_order breaks the index–structure correspondence. -/
theorem pop_order_leaves_stale_index :
    ((OrderBook.pop_order bk1 Side.Buy).2.bids = [] ∧
     (OrderBook.pop_order bk1 Side.Buy).2.asks = [] ∧
     hmContains (OrderBook.pop_order bk1 Side.Buy).2.order_id_mapping "B1" = true) := by
  refine ⟨rfl, rfl, rfl⟩

/-! ### Reachable book states and side purity (claim C4) -/

/-- Book states reachable through the public operations: fresh books, and
books produced by add_order and pop_order. -/
inductive ReachableBook : OrderBook → Prop where
  | new (symbol : String) : ReachableBook (OrderBook.new symbol)
  | add (b : OrderBook) (o : Order) : ReachableBook b →
      ReachableBook (OrderBook.add_order b o).2
  | pop (b : OrderBook) (s : Side) : ReachableBook b →
      ReachableBook (OrderBook.pop_order b s).2

theorem add_order_mem_bids (b : OrderBook) (o : Order) :
    ∀ x ∈ (OrderBook.add_order b o).2.bids,
      x ∈ b.bids ∨ (x = ({ order := o }, (1 : Int)) ∧ o.side = Side.Buy) := by
  intro x hx
  simp only [OrderBook.add_order] at hx
  split at hx
  · exact Or.inl hx
  · split at hx
    · rcases List.mem_append.1 hx with h1 | h2
      · exact Or.inl h1
      · simp at h2
        exact Or.inr ⟨by simp [h2, pqPush], by assumption⟩
    · exact Or.inl hx

theorem add_order_mem_asks (b : OrderBook) (o : Order) :
    ∀ x ∈ (OrderBook.add_order b o).2.asks,
      x ∈ b.asks ∨ (x = ({ order := o }, (1 : Int)) ∧ o.side = Side.Sell) := by
  intro x hx
  simp only [OrderBook.add_order] at hx
  split at hx
  · exact Or.inl hx
  · split at hx
    · exact Or.inl hx
    · rcases List.mem_append.1 hx with h1 | h2
      · exact Or.inl h1
      · simp at h2
        exact Or.inr ⟨by simp [h2, pqPush], by assumption⟩

theorem pop_order_mem_bids (b : OrderBook) (s : Side) :
    ∀ x ∈ (OrderBook.pop_order b s).2.bids, x ∈ b.bids := by
  intro x hx
  simp only [OrderBook.pop_order] at hx
  split at hx
  · split at hx
    · rename_i op q heq
      exact pqPop_mem b.bids op q heq x hx
    · exact hx
  · split at hx
    · exact hx
    · exact hx

theorem pop_order_mem_asks (b : OrderBook) (s : Side) :
    ∀ x ∈ (OrderBook.pop_order b s).2.asks, x ∈ b.asks := by
  intro x hx
  simp only [OrderBook.pop_order] at hx
  split at hx
  · split at hx
    · exact hx
    · exact hx
  · split at hx
    · rename_i op q heq
      exact pqPop_mem b.asks op q heq x hx
    · exact hx

theorem reachable_sides_pure (b : OrderBook) (h : ReachableBook b) :
    (∀ x ∈ b.bids, x.1.order.side = Side.Buy) ∧
    (∀ x ∈ b.asks, x.1.order.side = Side.Sell) := by
  induction h with
  | new symbol => simp [OrderBook.new]
  | add b o _ ih =>
    refine ⟨fun x hx => ?_, fun x hx => ?_⟩
    · rcases add_order_mem_bids b o x hx with h1 | ⟨rfl, hs⟩
      · exact ih.1 x h1
      · exact hs
    · rcases add_order_mem_asks b o x hx with h1 | ⟨rfl, hs⟩
      · exact ih.2 x h1
      · exact hs
  | pop b s _ ih =>
    exact ⟨fun x hx => ih.1 x (pop_order_mem_bids b s x hx),
      fun x hx => ih.2 x (pop_order_mem_asks b s x hx)⟩

theorem cmp_isSome_of_eq_side (x y : OrderComparable) (h : x.order.side = y.order.side) :
    (OrderComparable.cmp x y).isSome = true := by
  rw [OrderComparable.cmp, if_neg (by simp [h])]
  split <;> rfl

/-- Claim C4: in every reachable book state the bid structure holds only Buy
orders and the ask structure only Sell orders, so the comparator evaluated on
two orders held in the same side structure never hits its abort branch. -/
theorem cross_side_comparison_unreachable (b : OrderBook) (h : ReachableBook b) :
    (∀ x ∈ b.bids, x.1.order.side = Side.Buy) ∧
    (∀ x ∈ b.asks, x.1.order.side = Side.Sell) ∧
    (∀ x ∈ b.bids, ∀ y ∈ b.bids, (OrderComparable.cmp x.1 y.1).isSome = true) ∧
    (∀ x ∈ b.asks, ∀ y ∈ b.asks, (OrderComparable.cmp x.1 y.1).isSome = true) := by
  obtain ⟨hb, ha⟩ := reachable_sides_pure b h
  exact ⟨hb, ha,
    fun x hx y hy => cmp_isSome_of_eq_side _ _ ((hb x hx).trans (hb y hy).symm),
    fun x hx y hy => cmp_isSome_of_eq_side _ _ ((ha x hx).trans (ha y hy).symm)⟩

/-- Witness for C4: the sample book is reachable, its only bid is a Buy
order, and comparing it with itself does not abort. -/
theorem cross_side_comparison_unreachable_witness :
    (({ order := buyA }, (1 : Int)) ∈ bk1.bids) ∧
    ({ order := buyA } : OrderComparable).order.side = Side.Buy ∧
    (OrderComparable.cmp { order := buyA } { order := buyA }).isSome = true := by
  have hr : ReachableBook bk1 :=
    ReachableBook.add (OrderBook.new "AAPL") buyA (ReachableBook.new "AAPL")
  have h := cross_side_comparison_unreachable bk1 hr
  have hmem : (({ order := buyA }, (1 : Int)) ∈ bk1.bids) := by decide
  exact ⟨hmem, h.1 _ hmem, h.2.2.1 _ hmem _ hmem⟩

/-! ### Ticker and symbol administration (claims C6, C7) -/

/-- Engine holding the sample book under AAPL, with a ticker entry for
MSFT. -/
def eng1 : TradingEngine :=
  { orderbook_mapping := [("AAPL", bk1)], ticker_mapping := [("MSFT", 3)], is_live := true }

/-- Claim C6 counterexample: the symbol AAPL already has a book holding a
resting order, yet init_orderbook with AAPL changes the engine — the
resting order's book is replaced by a fresh empty one, so the operation is
not a no-op. -/
theorem init_orderbook_not_noop :
    hmContains eng1.orderbook_mapping "AAPL" = true ∧
    TradingEngine.init_orderbook eng1 ["AAPL"] ≠ eng1 :=
  ⟨by decide, by decide⟩

/-- Claim C6 amended: init_orderbook on an already-present symbol replaces
that symbol's book with a fresh empty book; books of other symbols, the
ticker table and the live flag are unchanged. -/
theorem init_orderbook_replaces (e : TradingEngine) (sym : String)
    (h : hmContains e.orderbook_mapping sym = true) :
    hmGet (TradingEngine.init_orderbook e [sym]).orderbook_mapping sym
      = some (OrderBook.new sym) ∧
    (∀ s, s ≠ sym → hmGet (TradingEngine.init_orderbook e [sym]).orderbook_mapping s
      = hmGet e.orderbook_mapping s) ∧
    (TradingEngine.init_orderbook e [sym]).ticker_mapping = e.ticker_mapping ∧
    (TradingEngine.init_orderbook e [sym]).is_live = e.is_live := by
  refine ⟨?_, ?_, rfl, rfl⟩
  · simp only [TradingEngine.init_orderbook, List.foldl]
    exact hmGet_hmInsert_self _ _ _
  · intro s hs
    simp only [TradingEngine.init_orderbook, List.foldl]
    exact hmGet_hmInsert_ne _ _ _ _ hs

/-- Witness for C6's amended theorem, on the sample engine. -/
theorem init_orderbook_replaces_witness :
    hmContains eng1.orderbook_mapping "AAPL" = true ∧
    hmGet (TradingEngine.init_orderbook eng1 ["AAPL"]).orderbook_mapping "AAPL"
      = some (OrderBook.new "AAPL") ∧
    hmGet (TradingEngine.init_orderbook eng1 ["AAPL"]).orderbook_mapping "GOOGL"
      = hmGet eng1.orderbook_mapping "GOOGL" ∧
    (TradingEngine.init_orderbook eng1 ["AAPL"]).ticker_mapping = eng1.ticker_mapping := by
  have h := init_orderbook_replaces eng1 "AAPL" (by decide)
  exact ⟨by decide, h.1, h.2.1 "GOOGL" (by decide), h.2.2.1⟩

theorem hmGet_foldl_insert_not_mem {α : Type} (batch : HMap α) (m0 : HMap α) (s : String)
    (h : s ∉ hmKeys batch) :
    hmGet (batch.foldl (fun m sp => hmInsert m sp.1 sp.2) m0) s = hmGet m0 s := by
  induction batch generalizing m0 with
  | nil => rfl
  | cons e batch ih =>
    have h1 : s ≠ e.1 := fun hh => h (by simp [hmKeys, hh])
    have h2 : s ∉ hmKeys batch := fun hh => h (by
      simp only [hmKeys, List.map_cons, List.mem_cons]
      exact Or.inr (by simpa [hmKeys] using hh))
    simp only [List.foldl]
    rw [ih (hmInsert m0 e.1 e.2) h2, hmGet_hmInsert_ne _ _ _ _ h1]

theorem hmGet_foldl_insert_mem {α : Type} (batch : HMap α) (m0 : HMap α) (s : String) (p : α)
    (hnd : (hmKeys batch).Nodup) (hmem : (s, p) ∈ batch) :
    hmGet (batch.foldl (fun m sp => hmInsert m sp.1 sp.2) m0) s = some p := by
  induction batch generalizing m0 with
  | nil => cases hmem
  | cons e batch ih =>
    have hnd2 := by simpa only [hmKeys, List.map_cons, List.nodup_cons] using hnd
    simp only [List.foldl]
    rcases List.mem_cons.1 hmem with rfl | hmem2
    · have hs : s ∉ hmKeys batch := by simpa [hmKeys] using hnd2.1
      rw [hmGet_foldl_insert_not_mem batch _ s hs, hmGet_hmInsert_self]
    · exact ih (hmInsert m0 e.1 e.2) (by simpa [hmKeys] using hnd2.2) hmem2

theorem hmGet_foldl_insert_isSome {α : Type} (batch : HMap α) (m0 : HMap α) (s : String)
    (h : (hmGet m0 s).isSome = true) :
    (hmGet (batch.foldl (fun m sp => hmInsert m sp.1 sp.2) m0) s).isSome = true := by
  induction batch generalizing m0 with
  | nil => exact h
  | cons e batch ih => exact ih (hmInsert m0 e.1 e.2) (hmGet_hmInsert_isSome _ _ _ _ h)

/-- Claim C7: update_ticker sets the ticker entry of every symbol of the
batch to the batch's price, leaves ticker entries of symbols outside the
batch unchanged, never removes a ticker entry, and leaves every order book
and the live flag unchanged. -/
theorem update_ticker_frame (e : TradingEngine) (batch : HMap Rat)
    (hnd : (hmKeys batch).Nodup) :
    (∀ s p, (s, p) ∈ batch →
      hmGet (TradingEngine.update_ticker e batch).ticker_mapping s = some p) ∧
    (∀ s, s ∉ hmKeys batch →
      hmGet (TradingEngine.update_ticker e batch).ticker_mapping s
        = hmGet e.ticker_mapping s) ∧
    (∀ s, (hmGet e.ticker_mapping s).isSome = true →
      (hmGet (TradingEngine.update_ticker e batch).ticker_mapping s).isSome = true) ∧
    (TradingEngine.update_ticker e batch).orderbook_mapping = e.orderbook_mapping ∧
    (TradingEngine.update_ticker e batch).is_live = e.is_live := by
  refine ⟨?_, ?_, ?_, rfl, rfl⟩
  · intro s p hmem
    exact hmGet_foldl_insert_mem batch e.ticker_mapping s p hnd hmem
  · intro s hs
    exact hmGet_foldl_insert_not_mem batch e.ticker_mapping s hs
  · intro s hsome
    exact hmGet_foldl_insert_isSome batch e.ticker_mapping s hsome

/-- Witness for C7: a one-entry batch on the sample engine updates AAPL,
leaves GOOGL and the pre-existing MSFT entry alone, and touches no book. -/
theorem update_ticker_frame_witness :
    (hmKeys ([("AAPL", (7 : Rat))] : HMap Rat)).Nodup ∧
    hmGet (TradingEngine.update_ticker eng1 [("AAPL", 7)]).ticker_mapping "AAPL"
      = some 7 ∧
    hmGet (TradingEngine.update_ticker eng1 [("AAPL", 7)]).ticker_mapping "GOOGL"
      = hmGet eng1.ticker_mapping "GOOGL" ∧
    (hmGet (TradingEngine.update_ticker eng1 [("AAPL", 7)]).ticker_mapping "MSFT").isSome
      = true ∧
    (TradingEngine.update_ticker eng1 [("AAPL", 7)]).orderbook_mapping
      = eng1.orderbook_mapping := by
  have h := update_ticker_frame eng1 [("AAPL", 7)] (by decide)
  exact ⟨by decide, h.1 "AAPL" 7 (by decide), h.2.1 "GOOGL" (by decide),
    h.2.2.1 "MSFT" (by decide), h.2.2.2.1⟩

/-! ### Matching-engine lemmas (claims C5, C8, C9; spec-modelled) -/

theorem matchLoop_trades_prefix (l : List Order) :
    ∀ (agg : Order) (ts : List Trade), ∃ new, (matchLoop agg l ts).2.2 = ts ++ new := by
  induction l with
  | nil => intro agg ts; exact ⟨[], by simp [matchLoop]⟩
  | cons r rest ih =>
    intro agg ts
    rw [matchLoop]
    dsimp only
    split
    · exact ⟨[], by simp⟩
    · split
      · exact ⟨[], by simp⟩
      · split
        · obtain ⟨n2, hn⟩ := ih _ (ts ++ [fillTrade r (min agg.leaves_qty r.leaves_qty)])
          exact ⟨[fillTrade r (min agg.leaves_qty r.leaves_qty)] ++ n2,
            by rw [hn, List.append_assoc]⟩
        · exact ⟨[fillTrade r (min agg.leaves_qty r.leaves_qty)], rfl⟩

theorem matchLoop_agg_id (l : List Order) :
    ∀ (agg : Order) (ts : List Trade), (matchLoop agg l ts).1.order_id = agg.order_id := by
  induction l with
  | nil => intro agg ts; rfl
  | cons r rest ih =>
    intro agg ts
    rw [matchLoop]
    dsimp only
    split
    · rfl
    · split
      · rfl
      · split
        · rw [ih]
        · rfl

theorem matchLoop_mem_trades (l : List Order) :
    ∀ (agg : Order) (ts : List Trade) (t : Trade), t ∈ (matchLoop agg l ts).2.2 →
      t ∈ ts ∨ t.order_id ∈ l.map (fun o => o.order_id) := by
  induction l with
  | nil => intro agg ts t ht; exact Or.inl (by simpa [matchLoop] using ht)
  | cons r rest ih =>
    intro agg ts t ht
    rw [matchLoop] at ht
    dsimp only at ht
    split at ht
    · exact Or.inl ht
    · split at ht
      · exact Or.inl ht
      · split at ht
        · rcases ih _ _ t ht with hin | hid
          · rcases List.mem_append.1 hin with h1 | h2
            · exact Or.inl h1
            · simp only [List.mem_singleton] at h2
              subst h2
              exact Or.inr (by simp [fillTrade])
          · exact Or.inr (List.mem_cons_of_mem _ hid)
        · rcases List.mem_append.1 ht with h1 | h2
          · exact Or.inl h1
          · simp only [List.mem_singleton] at h2
            subst h2
            exact Or.inr (by simp [fillTrade])

theorem matchLoop_mem_rest (l : List Order) :
    ∀ (agg : Order) (ts : List Trade) (o : Order), o ∈ (matchLoop agg l ts).2.1 →
      o.order_id ∈ l.map (fun o2 => o2.order_id) := by
  induction l with
  | nil => intro agg ts o ho; simp [matchLoop] at ho
  | cons r rest ih =>
    intro agg ts o ho
    rw [matchLoop] at ho
    dsimp only at ho
    split at ho
    · rcases List.mem_cons.1 ho with rfl | h2
      · exact List.mem_cons_self _ _
      · exact List.mem_cons_of_mem _ (List.mem_map_of_mem _ h2)
    · split at ho
      · rcases List.mem_cons.1 ho with rfl | h2
        · exact List.mem_cons_self _ _
        · exact List.mem_cons_of_mem _ (List.mem_map_of_mem _ h2)
      · split at ho
        · exact List.mem_cons_of_mem _ (ih _ _ o ho)
        · rcases List.mem_cons.1 ho with rfl | h2
          · exact List.mem_cons.2 (Or.inl rfl)
          · exact List.mem_cons_of_mem _ (List.mem_map_of_mem _ h2)

theorem insertBid_mem (o : Order) (l : List Order) :
    ∀ x ∈ insertBid o l, x = o ∨ x ∈ l := by
  induction l with
  | nil => intro x hx; simp [insertBid] at hx; exact Or.inl hx
  | cons r rest ih =>
    intro x hx
    rw [insertBid] at hx
    split at hx
    · rcases List.mem_cons.1 hx with rfl | h2
      · exact Or.inl rfl
      · exact Or.inr h2
    · rcases List.mem_cons.1 hx with rfl | h2
      · exact Or.inr (List.mem_cons_self _ _)
      · rcases ih x h2 with h3 | h4
        · exact Or.inl h3
        · exact Or.inr (List.mem_cons_of_mem _ h4)

theorem insertAsk_mem (o : Order) (l : List Order) :
    ∀ x ∈ insertAsk o l, x = o ∨ x ∈ l := by
  induction l with
  | nil => intro x hx; simp [insertAsk] at hx; exact Or.inl hx
  | cons r rest ih =>
    intro x hx
    rw [insertAsk] at hx
    split at hx
    · rcases List.mem_cons.1 hx with rfl | h2
      · exact Or.inl rfl
      · exact Or.inr h2
    · rcases List.mem_cons.1 hx with rfl | h2
      · exact Or.inr (List.mem_cons_self _ _)
      · rcases ih x h2 with h3 | h4
        · exact Or.inl h3
        · exact Or.inr (List.mem_cons_of_mem _ h4)

theorem specSubmit_ids (b : SpecBook) (o : Order) :
    ∀ s ∈ specIds (specSubmit b o).2, s = o.order_id ∨ s ∈ specIds b := by
  intro s hs
  rw [specSubmit] at hs
  split at hs
  · exact Or.inr hs
  · split at hs
    · exact Or.inr hs
    · split at hs
      · dsimp only at hs
        simp only [specIds, List.map_append, List.mem_append, List.mem_map] at hs
        rcases hs with ⟨x, hx, rfl⟩ | ⟨x, hx, rfl⟩
        · split at hx
          · rcases insertBid_mem _ _ x hx with rfl | h2
            · exact Or.inl (matchLoop_agg_id b.asks o [])
            · exact Or.inr (by
                simp only [specIds, List.map_append, List.mem_append]
                exact Or.inl (List.mem_map_of_mem _ h2))
          · exact Or.inr (by
              simp only [specIds, List.map_append, List.mem_append]
              exact Or.inl (List.mem_map_of_mem _ hx))
        · have := matchLoop_mem_rest b.asks o [] x hx
          exact Or.inr (by
            simp only [specIds, List.map_append, List.mem_append]
            exact Or.inr this)
      · dsimp only at hs
        simp only [specIds, List.map_append, List.mem_append, List.mem_map] at hs
        rcases hs with ⟨x, hx, rfl⟩ | ⟨x, hx, rfl⟩
        · have := matchLoop_mem_rest b.bids o [] x hx
          exact Or.inr (by
            simp only [specIds, List.map_append, List.mem_append]
            exact Or.inl this)
        · split at hx
          · rcases insertAsk_mem _ _ x hx with rfl | h2
            · exact Or.inl (matchLoop_agg_id b.bids o [])
            · exact Or.inr (by
                simp only [specIds, List.map_append, List.mem_append]
                exact Or.inr (List.mem_map_of_mem _ h2))
          · exact Or.inr (by
              simp only [specIds, List.map_append, List.mem_append]
              exact Or.inr (List.mem_map_of_mem _ hx))

theorem specSubmit_trades (b : SpecBook) (o : Order) (ts : List Trade)
    (h : (specSubmit b o).1 = Except.ok ts) :
    ∀ t ∈ ts, t.order_id ∈ specIds b := by
  intro t ht
  rw [specSubmit] at h
  split at h
  · cases h
  · split at h
    · cases h
    · split at h
      · dsimp only at h
        rw [Except.ok.injEq] at h
        subst h
        rcases matchLoop_mem_trades b.asks o [] t ht with h1 | h2
        · cases h1
        · simp only [specIds, List.map_append, List.mem_append]
          exact Or.inr h2
      · dsimp only at h
        rw [Except.ok.injEq] at h
        subst h
        rcases matchLoop_mem_trades b.bids o [] t ht with h1 | h2
        · cases h1
        · simp only [specIds, List.map_append, List.mem_append]
          exact Or.inl h2

theorem runSubmits_no_closed_id (os : List Order) :
    ∀ (b : SpecBook) (oid : String), oid ∉ specIds b →
      (∀ o ∈ os, o.order_id ≠ oid) →
      ∀ t ∈ (runSubmits b os).2, t.order_id ≠ oid := by
  induction os with
  | nil => intro b oid _ _ t ht; simp [runSubmits] at ht
  | cons o os ih =>
    intro b oid hb hos t ht
    rw [runSubmits] at ht
    dsimp only at ht
    rcases List.mem_append.1 ht with h1 | h2
    · cases hres : (specSubmit b o).1 with
      | error err => rw [hres] at h1; cases h1
      | ok ts =>
        rw [hres] at h1
        intro heq
        exact hb (heq ▸ specSubmit_trades b o ts hres t h1)
    · refine ih (specSubmit b o).2 oid ?_ (fun o2 ho2 => hos o2 (List.mem_cons_of_mem _ ho2)) t h2
      intro hmem
      rcases specSubmit_ids b o oid hmem with h3 | h4
      · exact hos o (List.mem_cons_self _ _) h3.symm
      · exact hb h4

theorem specClose_not_mem (b : SpecBook) (oid : String) :
    oid ∉ specIds (specClose b oid).2 := by
  rw [specClose]
  split
  · intro hmem
    simp only [specIds, List.map_append, List.mem_append, List.mem_map] at hmem
    rcases hmem with ⟨x, hx, hid⟩ | ⟨x, hx, hid⟩
    · have hp := List.of_mem_filter hx
      simp only [bne_iff_ne, ne_eq] at hp
      exact hp hid
    · have hp := List.of_mem_filter hx
      simp only [bne_iff_ne, ne_eq] at hp
      exact hp hid
  · intro hmem
    rename_i hnot
    exact hnot hmem

/-! ### Claims C5, C8, C9 -/

/-- Claim C5 (spec-modelled): when the incoming order crosses the best
resting order, the emitted trade carries the resting order's price and the
minimum of the two leaves quantities; in particular scenario A of spec
section 8 holds: Buy 5 at 10.00 rests with no trades, then Sell 3 at 9.50
trades once at price 10.00 for quantity 3, leaving the bid with leaves 2. -/
theorem trade_at_resting_price (agg r : Order) (rest : List Order) (ts : List Trade)
    (h0 : 0 < agg.leaves_qty) (hc : crosses agg r = true) :
    (((matchLoop agg (r :: rest) ts).2.2)[ts.length]?
        = some (fillTrade r (min agg.leaves_qty r.leaves_qty)) ∧
      (fillTrade r (min agg.leaves_qty r.leaves_qty)).trade_price = r.price ∧
      (fillTrade r (min agg.leaves_qty r.leaves_qty)).trade_qty
        = min agg.leaves_qty r.leaves_qty) ∧
    specSubmit ⟨[], []⟩ buyA = (Except.ok [], ⟨[buyA], []⟩) ∧
    specSubmit ⟨[buyA], []⟩ sellA
      = (Except.ok [⟨"B1", "AAPL", 10, 3, Side.Buy, "B1-t"⟩],
         ⟨[⟨"B1", "AAPL", 10, 5, 3, 2, Side.Buy⟩], []⟩) := by
  refine ⟨⟨?_, rfl, rfl⟩, rfl, rfl⟩
  rw [matchLoop, if_neg (Nat.pos_iff_ne_zero.1 h0), if_neg (by simp [hc])]
  dsimp only
  split
  · obtain ⟨n2, hn⟩ :=
      matchLoop_trades_prefix rest _ (ts ++ [fillTrade r (min agg.leaves_qty r.leaves_qty)])
    rw [hn, List.append_assoc, List.getElem?_append_right (Nat.le_refl _)]
    simp
  · rw [List.getElem?_append_right (Nat.le_refl _)]
    simp

/-- Witness for C5: the scenario-A aggressor Sell 3 at 9.50 against the
resting bid Buy 5 at 10.00. -/
theorem trade_at_resting_price_witness :
    0 < sellA.leaves_qty ∧ crosses sellA buyA = true ∧
    ((matchLoop sellA [buyA] []).2.2)[0]?
      = some (fillTrade buyA (min sellA.leaves_qty buyA.leaves_qty)) := by
  have h := trade_at_resting_price sellA buyA [] [] (by decide) (by decide)
  exact ⟨by decide, by decide, h.1.1⟩

/-- Claim C8 (spec-modelled): a submission with non-positive price or zero
quantity is rejected with InvalidOrder before any book mutation — the book
is returned untouched and no matching occurs. -/
theorem invalid_order_rejected (b : SpecBook) (o : Order)
    (h : o.price ≤ 0 ∨ o.qty = 0) :
    specSubmit b o = (Except.error EngineError.InvalidOrder, b) := by
  rw [specSubmit, if_pos h]

/-- Witness for C8: a zero-quantity buy against a non-empty book. -/
theorem invalid_order_rejected_witness :
    ((⟨"Z", "AAPL", 5, 0, 0, 0, Side.Buy⟩ : Order).qty = 0) ∧
    specSubmit ⟨[buyA], []⟩ ⟨"Z", "AAPL", 5, 0, 0, 0, Side.Buy⟩
      = (Except.error EngineError.InvalidOrder, ⟨[buyA], []⟩) :=
  ⟨rfl, invalid_order_rejected _ _ (Or.inr rfl)⟩

/-- Claim C9 (spec-modelled): close_order on an absent order_id fails with
OrderNotFound and leaves the book unchanged; on a resting order_id it
succeeds and removes the order, and no sequence of later submissions (none
reusing that order_id) ever produces a trade involving it. -/
theorem close_order_spec (b : SpecBook) (oid : String) :
    (oid ∉ specIds b → specClose b oid = (Except.error EngineError.OrderNotFound, b)) ∧
    (oid ∈ specIds b → (specClose b oid).1 = Except.ok ()) ∧
    oid ∉ specIds (specClose b oid).2 ∧
    (∀ os, (∀ o ∈ os, o.order_id ≠ oid) →
      ∀ t ∈ (runSubmits (specClose b oid).2 os).2, t.order_id ≠ oid) :=
  ⟨fun h => by rw [specClose, if_neg h],
   fun h => by rw [specClose, if_pos h],
   specClose_not_mem b oid,
   fun os hos => runSubmits_no_closed_id os _ oid (specClose_not_mem b oid) hos⟩

/-- Fresh bid used after the cancel in the C9 witness. -/
def oB2 : Order := ⟨"B2", "AAPL", 10, 5, 0, 5, Side.Buy⟩

/-- Fresh ask used after the cancel in the C9 witness. -/
def oS2 : Order := ⟨"S2", "AAPL", mkRat 19 2, 3, 0, 3, Side.Sell⟩

/-- Witness for C9: closing an absent id fails and changes nothing; closing
the resting bid B1 succeeds and removes it, and the trade produced by the
later B2/S2 cross does not involve B1. -/
theorem close_order_spec_witness :
    ("X" ∉ specIds ⟨[buyA], []⟩) ∧
    specClose ⟨[buyA], []⟩ "X" = (Except.error EngineError.OrderNotFound, ⟨[buyA], []⟩) ∧
    ("B1" ∈ specIds ⟨[buyA], []⟩) ∧
    (specClose ⟨[buyA], []⟩ "B1").1 = Except.ok () ∧
    ("B1" ∉ specIds (specClose ⟨[buyA], []⟩ "B1").2) ∧
    (fillTrade oB2 3 ∈ (runSubmits (specClose ⟨[buyA], []⟩ "B1").2 [oB2, oS2]).2) ∧
    (fillTrade oB2 3).order_id ≠ "B1" := by
  have h1 := close_order_spec ⟨[buyA], []⟩ "X"
  have h2 := close_order_spec ⟨[buyA], []⟩ "B1"
  exact ⟨by decide, h1.1 (by decide), by decide, h2.2.1 (by decide), h2.2.2.1,
    by decide, h2.2.2.2 [oB2, oS2] (by decide) _ (by decide)⟩

end MatchingEngine
